import Mathlib

/-!
Verification of the SpaceMouse HID listener core
(`spacemouse_hid.py`: `SpaceMouseListener`).

The Python module converts raw HID translation reports from a 6-DOF
controller into synthetic mouse events.  This file gives a shallow
embedding of its pure computational core:

* `decodeHid` / `onRawInput` — the raw-input parsing in
  `SpaceMouseListener._on_raw_input` (byte-buffer validation, RAWHID
  header fields, little-endian i16 extraction);
* `applyStep` — the axis-to-gesture conversion in
  `SpaceMouseListener._apply`, including the dead-zone filter, the
  truncating pan scaling, and the zoom-accumulator draining loop
  (`drain`);
* `runSteps` — folding `applyStep` over a finite sample sequence;
* `messageLoopExit` / `stopCalls` — the straight-line tails of
  `SpaceMouseListener._message_loop` (after the receive loop) and
  `SpaceMouseListener.stop`, at the level of emitted system calls;
* `wndProc` — the `drawing_mode` gate in `SpaceMouseListener._wnd_proc`.

Python float arithmetic on the tuning scalars (`PAN_SCALE = 0.08`,
`ZOOM_SCALE = 0.15`) is modelled with exact rationals (`ℚ`); machine
bytes are natural numbers below 256.
-/

namespace SpaceMouse

/-- Tunable conversion settings, mirroring the class attributes
`PAN_SCALE`, `ZOOM_SCALE`, `DEAD_ZONE` of `SpaceMouseListener`. -/
structure Settings where
  panScale : ℚ
  zoomScale : ℚ
  deadZone : ℤ
  deriving DecidableEq

/-- The default values `PAN_SCALE = 0.08`, `ZOOM_SCALE = 0.15`,
`DEAD_ZONE = 25` (floats modelled as exact rationals). -/
def defaultSettings : Settings :=
  { panScale := 8 / 100, zoomScale := 15 / 100, deadZone := 25 }

/-- Synthesized input actions produced by the converter
(`_press_middle`, `_release_middle`, `_move`, `_scroll`). -/
inductive Action where
  | press : Action
  | release : Action
  | move (dx dy : ℤ) : Action
  | scroll (amount : ℤ) : Action
  deriving DecidableEq

/-- Converter state: `self._mid_held` and `self._zoom_acc`. -/
structure ConvState where
  midHeld : Bool
  zoomAcc : ℚ
  deriving DecidableEq

/-- Truncation toward zero, the semantics of Python `int()` applied to a
number: floor for nonnegative values, ceiling for negative ones, so
`ratTrunc (38/5) = 7` and `ratTrunc (-38/5) = -7`. -/
def ratTrunc (q : ℚ) : ℤ :=
  if 0 ≤ q then Int.floor q else Int.ceil q

/-- The zoom-draining loop of `_apply`:
`while abs(self._zoom_acc) >= 120: tick = ±120; self._scroll(tick);
self._zoom_acc -= tick`.  Returns the final accumulator and the emitted
scroll actions in order. -/
def drain (acc : ℚ) : ℚ × List Action :=
  if h : (120 : ℚ) ≤ |acc| then
    if hp : 0 < acc then
      let r := drain (acc - 120)
      (r.1, Action.scroll 120 :: r.2)
    else
      let r := drain (acc + 120)
      (r.1, Action.scroll (-120) :: r.2)
  else
    (acc, [])
termination_by (Int.ceil |acc|).toNat
decreasing_by
· have ha : |acc| = acc := abs_of_pos hp
  have h120 : (120 : ℚ) ≤ acc := ha ▸ h
  have h1 : |acc - 120| = acc - 120 := abs_of_nonneg (by linarith)
  have h2 : Int.ceil (acc - (120 : ℚ)) = Int.ceil acc - 120 := by
    exact_mod_cast Int.ceil_sub_int acc 120
  have h3 : (120 : ℤ) ≤ Int.ceil acc := by
    exact_mod_cast h120.trans (Int.le_ceil acc)
  rw [h1, h2, ha]
  omega
· have hle : acc ≤ 0 := le_of_not_lt hp
  have ha : |acc| = -acc := abs_of_nonpos hle
  have h120 : (120 : ℚ) ≤ -acc := ha ▸ h
  have h1 : |acc + 120| = -acc - 120 := by
    rw [abs_of_nonpos (by linarith)]; ring
  have h2 : Int.ceil (-acc - (120 : ℚ)) = Int.ceil (-acc) - 120 := by
    exact_mod_cast Int.ceil_sub_int (-acc) 120
  have h3 : (120 : ℤ) ≤ Int.ceil (-acc) := by
    exact_mod_cast h120.trans (Int.le_ceil (-acc))
  rw [h1, h2, ha]
  omega

/-- One pan component of `_apply` (lines 314–315):
`int(v * PAN_SCALE) if abs(v) >= DEAD_ZONE else 0`. -/
def panComponent (s : Settings) (v : ℤ) : ℤ :=
  if s.deadZone ≤ |v| then ratTrunc ((v : ℚ) * s.panScale) else 0

/-- The raw zoom contribution of one sample (line 316 of `_apply`):
`(-y * ZOOM_SCALE) if abs(y) >= DEAD_ZONE else 0.0`. -/
def zoomContrib (s : Settings) (p : ℤ × ℤ × ℤ) : ℚ :=
  if s.deadZone ≤ |p.2.1| then ((-p.2.1 : ℤ) : ℚ) * s.zoomScale else 0

/-- The middle-button management block of `_apply` (lines 318–323):
when a pan component is nonzero, press if not already held, then move;
when both are zero and the button is held, release.  Returns the new
held flag and the emitted actions. -/
def panActs (held : Bool) (panX panY : ℤ) : Bool × List Action :=
  if panX ≠ 0 ∨ panY ≠ 0 then
    if held then (true, [Action.move panX panY])
    else (true, [Action.press, Action.move panX panY])
  else if held then (false, [Action.release])
  else (false, [])

/-- One conversion step, `SpaceMouseListener._apply(x, y, z)`:
dead-zone filtering, truncating pan scaling, press/move/release
management of the middle button, and zoom accumulation with draining
(lines 312–330).  Returns the new state and the emitted actions in
order. -/
def applyStep (s : Settings) (st : ConvState) (x y z : ℤ) : ConvState × List Action :=
  let panX : ℤ := panComponent s x
  let panY : ℤ := panComponent s z
  let zoom : ℚ := zoomContrib s (x, y, z)
  let pan : Bool × List Action := panActs st.midHeld panX panY
  if zoom ≠ 0 then
    let d := drain (st.zoomAcc + zoom)
    (⟨pan.1, d.1⟩, pan.2 ++ d.2)
  else
    (⟨pan.1, st.zoomAcc⟩, pan.2)

/-- Feeding a finite sequence of `(x, y, z)` samples through the
converter, collecting all emitted actions. -/
def runSteps (s : Settings) (st : ConvState) : List (ℤ × ℤ × ℤ) → ConvState × List Action
  | [] => (st, [])
  | (x, y, z) :: rest =>
    let r1 := applyStep s st x y z
    let r2 := runSteps s r1.1 rest
    (r2.1, r1.2 ++ r2.2)

/-- Sum of the signed magnitudes of the scroll actions in a list. -/
def scrollSum : List Action → ℚ
  | [] => 0
  | Action.scroll n :: rest => (n : ℚ) + scrollSum rest
  | _ :: rest => scrollSum rest

/-- Whether an action is a scroll. -/
def isScroll : Action → Bool
  | Action.scroll _ => true
  | _ => false

/-- Whether an action is a pointer move. -/
def isMove : Action → Bool
  | Action.move _ _ => true
  | _ => false

/-- Press/release alternation checker for an action sequence, starting
from a given held state: a press is legal only when not held, a release
only when held; moves and scrolls do not affect the button. -/
def alternatesFrom (held : Bool) : List Action → Bool
  | [] => true
  | Action.press :: rest => !held && alternatesFrom true rest
  | Action.release :: rest => held && alternatesFrom false rest
  | Action.move _ _ :: rest => alternatesFrom held rest
  | Action.scroll _ :: rest => alternatesFrom held rest

/-- The button state implied by an action sequence: true after it iff
there is an unmatched press (starting from the given held state). -/
def heldAfter (held : Bool) : List Action → Bool
  | [] => held
  | Action.press :: rest => heldAfter true rest
  | Action.release :: rest => heldAfter false rest
  | Action.move _ _ :: rest => heldAfter held rest
  | Action.scroll _ :: rest => heldAfter held rest

/-- The spec-side pan formula (§4.2 of the specification):
`pan_x = round(x * pan_scale)` if the axis passed the dead-zone filter,
else 0 — rounding to the nearest integer, written with Mathlib `round`.
This definition follows the specification text, for comparison with the
source-derived `applyStep`; the two disagree (see the C1 theorems). -/
def specPanRound (s : Settings) (v : ℤ) : ℤ :=
  if s.deadZone ≤ |v| then round ((v : ℚ) * s.panScale) else 0

/-! ### Raw-input decoding (`SpaceMouseListener._on_raw_input`)

The validated byte buffer returned by `GetRawInputData` is modelled as a
`List Nat` of bytes.  On 64-bit Windows `sizeof(RAWINPUTHEADER) = 24`
(`dwType : u32` at 0, `dwSize : u32` at 4, `hDevice` at 8, `wParam` at
16), so the RAWHID block starts at offset 24: `dwSizeHid : u32` at 24,
`dwCount : u32` at 28, and the report byte array at 32. -/

/-- Little-endian 16-bit value from two bytes. -/
def le16 (lo hi : ℕ) : ℕ := lo + 256 * hi

/-- Little-endian 32-bit value from four bytes. -/
def le32 (b0 b1 b2 b3 : ℕ) : ℕ :=
  b0 + 256 * b1 + 65536 * b2 + 16777216 * b3

/-- Reinterpret an unsigned 16-bit value as a signed 16-bit integer
(the `h` format of `struct.unpack`). -/
def toI16 (u : ℕ) : ℤ :=
  if u < 32768 then (u : ℤ) else (u : ℤ) - 65536

/-- Little-endian byte encoding of a signed 16-bit integer (the inverse
direction of the decoder, used to state the round-trip property). -/
def encodeI16 (v : ℤ) : List ℕ :=
  [(v % 65536).toNat % 256, (v % 65536).toNat / 256]

/-- Decode one HID report of at least 7 bytes (lines 302–306 of
`spacemouse_hid.py`): byte 0 is the report id; only id 1 (translation)
is handled, yielding the three little-endian i16 values in bytes 1–6;
every other id is ignored. -/
def decodeHid (hid : List ℕ) : Option (ℤ × ℤ × ℤ) :=
  if hid.getD 0 0 = 1 then
    some (toI16 (le16 (hid.getD 1 0) (hid.getD 2 0)),
          toI16 (le16 (hid.getD 3 0) (hid.getD 4 0)),
          toI16 (le16 (hid.getD 5 0) (hid.getD 6 0)))
  else
    none

/-- The `dwType` field of the RAWINPUTHEADER (bytes 0–3). -/
def dwTypeOf (buf : List ℕ) : ℕ :=
  le32 (buf.getD 0 0) (buf.getD 1 0) (buf.getD 2 0) (buf.getD 3 0)

/-- The `dwSizeHid` field of the RAWHID block (bytes 24–27). -/
def dwSizeHidOf (buf : List ℕ) : ℕ :=
  le32 (buf.getD 24 0) (buf.getD 25 0) (buf.getD 26 0) (buf.getD 27 0)

/-- The `dwCount` field of the RAWHID block (bytes 28–31). -/
def dwCountOf (buf : List ℕ) : ℕ :=
  le32 (buf.getD 28 0) (buf.getD 29 0) (buf.getD 30 0) (buf.getD 31 0)

/-- The parsing and validation of `_on_raw_input` on the filled buffer
(lines 282–306): require `dwType = RIM_TYPEHID (= 2)`; require at least
8 bytes of RAWHID sizes after the 24-byte header; require
`dwCount ≠ 0` and `dwSizeHid ≥ 7`; slice the first report
(`buf[32 : 32 + dwSizeHid]`, clipped to the available bytes, as a
Python slice is); require at least 7 sliced bytes; then decode.
`none` models the silent `return` ("ignore"). -/
def onRawInput (buf : List ℕ) : Option (ℤ × ℤ × ℤ) :=
  if dwTypeOf buf ≠ 2 then none
  else if buf.length < 24 + 8 then none
  else if dwCountOf buf = 0 ∨ dwSizeHidOf buf < 7 then none
  else
    let hid := (buf.drop 32).take (dwSizeHidOf buf)
    if hid.length < 7 then none
    else decodeHid hid

/-! ### Session lifecycle tails (`_message_loop` exit, `stop`) -/

/-- System-level calls made by the lifecycle paths. -/
inductive SysCall where
  | unregisterDevice : SysCall
  | clearHwnd : SysCall
  | postDestroy : SysCall
  | joinThread : SysCall
  | sendPress : SysCall
  | sendRelease : SysCall
  deriving DecidableEq

/-- The straight-line tail of `_message_loop` after the receive loop
exits (lines 232–243): unregister the raw-input device
(`RIDEV_REMOVE`), clear `self._hwnd`, log.  It branches on nothing and
makes no `SendInput` call; logging is omitted as it is not an input
event.  `self._mid_held` is neither read nor written here. -/
def messageLoopExit : List SysCall :=
  [SysCall.unregisterDevice, SysCall.clearHwnd]

/-- The calls of `stop()` (lines 154–163): post `WM_DESTROY` when a
window handle exists, join the listener thread (bounded timeout), then
release the middle button iff `self._mid_held` still holds. -/
def stopCalls (hwndPresent : Bool) (heldAfterJoin : Bool) : List SysCall :=
  (if hwndPresent then [SysCall.postDestroy] else []) ++
    [SysCall.joinThread] ++
    (if heldAfterJoin then [SysCall.sendRelease] else [])

/-! ### Window procedure gate (`_wnd_proc`) -/

/-- Messages dispatched to the window procedure. -/
inductive WndMsg where
  | input (buf : List ℕ) : WndMsg
  | destroy : WndMsg
  | other (m : ℕ) : WndMsg

/-- The `WM_INPUT` handling of `_wnd_proc` (lines 249–253): a raw-input
message is decoded and applied only when `drawing_mode` is true;
otherwise it is dropped with no state change and no actions.  Other
messages never reach the converter. -/
def wndProc (drawingMode : Bool) (s : Settings) (st : ConvState) :
    WndMsg → ConvState × List Action
  | WndMsg.input buf =>
    if drawingMode then
      match onRawInput buf with
      | some (x, y, z) => applyStep s st x y z
      | none => (st, [])
    else (st, [])
  | WndMsg.destroy => (st, [])
  | WndMsg.other _ => (st, [])

/-! ### Helper lemmas -/

lemma ratTrunc_of_nonneg {q : ℚ} (h : 0 ≤ q) : ratTrunc q = Int.floor q := by
  rw [ratTrunc, if_pos h]

lemma drain_abs_lt (acc : ℚ) : |(drain acc).1| < 120 := by
  induction acc using drain.induct with
  | case1 acc h hp ih =>
    rw [drain, dif_pos h, dif_pos hp]
    exact ih
  | case2 acc h hp ih =>
    rw [drain, dif_pos h, dif_neg hp]
    exact ih
  | case3 acc h =>
    rw [drain, dif_neg h]
    exact lt_of_not_le h

lemma drain_conservation (acc : ℚ) :
    (drain acc).1 + scrollSum (drain acc).2 = acc := by
  induction acc using drain.induct with
  | case1 acc h hp ih =>
    rw [drain, dif_pos h, dif_pos hp]
    simp only [scrollSum] at ih ⊢
    push_cast
    linarith
  | case2 acc h hp ih =>
    rw [drain, dif_pos h, dif_neg hp]
    simp only [scrollSum] at ih ⊢
    push_cast
    linarith
  | case3 acc h =>
    rw [drain, dif_neg h]
    simp [scrollSum]

lemma drain_all_scroll (acc : ℚ) :
    ∀ a ∈ (drain acc).2, isScroll a = true := by
  induction acc using drain.induct with
  | case1 acc h hp ih =>
    rw [drain, dif_pos h, dif_pos hp]
    intro a ha
    rcases List.mem_cons.mp ha with rfl | ha
    · rfl
    · exact ih a ha
  | case2 acc h hp ih =>
    rw [drain, dif_pos h, dif_neg hp]
    intro a ha
    rcases List.mem_cons.mp ha with rfl | ha
    · rfl
    · exact ih a ha
  | case3 acc h =>
    rw [drain, dif_neg h]
    intro a ha
    simp at ha

lemma scrollSum_append (l₁ l₂ : List Action) :
    scrollSum (l₁ ++ l₂) = scrollSum l₁ + scrollSum l₂ := by
  induction l₁ with
  | nil => simp [scrollSum]
  | cons a rest ih =>
    cases a <;> simp [scrollSum, ih] <;> ring

lemma scrollSum_panActs (held : Bool) (panX panY : ℤ) :
    scrollSum (panActs held panX panY).2 = 0 := by
  rw [panActs]
  split
  · split <;> simp [scrollSum]
  · split <;> simp [scrollSum]

lemma filter_isMove_panActs (held : Bool) (panX panY : ℤ) :
    (panActs held panX panY).2.filter isMove
      = if panX ≠ 0 ∨ panY ≠ 0 then [Action.move panX panY] else [] := by
  rw [panActs]
  split
  · split <;> simp_all [isMove]
  · split <;> simp_all [isMove]

lemma filter_isMove_of_all_scroll {l : List Action}
    (h : ∀ a ∈ l, isScroll a = true) : l.filter isMove = [] := by
  induction l with
  | nil => rfl
  | cons a rest ih =>
    have ha := h a (List.mem_cons_self a rest)
    have ht : ∀ b ∈ rest, isScroll b = true :=
      fun b hb => h b (List.mem_cons_of_mem a hb)
    cases a <;> simp [isScroll] at ha <;> simp [List.filter, isMove, ih ht]

lemma alternatesFrom_append (held : Bool) (l₁ l₂ : List Action) :
    alternatesFrom held (l₁ ++ l₂)
      = (alternatesFrom held l₁ && alternatesFrom (heldAfter held l₁) l₂) := by
  induction l₁ generalizing held with
  | nil => simp [alternatesFrom, heldAfter]
  | cons a rest ih =>
    cases a <;> simp [alternatesFrom, heldAfter, ih] <;> cases held <;> simp

lemma heldAfter_append (held : Bool) (l₁ l₂ : List Action) :
    heldAfter held (l₁ ++ l₂) = heldAfter (heldAfter held l₁) l₂ := by
  induction l₁ generalizing held with
  | nil => simp [heldAfter]
  | cons a rest ih =>
    cases a <;> simp [heldAfter, ih]

lemma alternatesFrom_of_all_scroll {l : List Action} (held : Bool)
    (h : ∀ a ∈ l, isScroll a = true) : alternatesFrom held l = true := by
  induction l generalizing held with
  | nil => rfl
  | cons a rest ih =>
    have ha := h a (List.mem_cons_self a rest)
    have ht : ∀ b ∈ rest, isScroll b = true :=
      fun b hb => h b (List.mem_cons_of_mem a hb)
    cases a <;> simp [isScroll] at ha <;> simp [alternatesFrom, ih _ ht]

lemma heldAfter_of_all_scroll {l : List Action} (held : Bool)
    (h : ∀ a ∈ l, isScroll a = true) : heldAfter held l = held := by
  induction l generalizing held with
  | nil => rfl
  | cons a rest ih =>
    have ha := h a (List.mem_cons_self a rest)
    have ht : ∀ b ∈ rest, isScroll b = true :=
      fun b hb => h b (List.mem_cons_of_mem a hb)
    cases a <;> simp [isScroll] at ha <;> simp [heldAfter, ih _ ht]

lemma alternatesFrom_panActs (held : Bool) (panX panY : ℤ) :
    alternatesFrom held (panActs held panX panY).2 = true := by
  rw [panActs]
  split
  · split <;> simp_all [alternatesFrom]
  · split <;> simp_all [alternatesFrom]

lemma heldAfter_panActs (held : Bool) (panX panY : ℤ) :
    heldAfter held (panActs held panX panY).2 = (panActs held panX panY).1 := by
  rw [panActs]
  split
  · split <;> simp_all [heldAfter]
  · split <;> simp_all [heldAfter]

lemma applyStep_zoomAcc_lt (s : Settings) (st : ConvState) (x y z : ℤ)
    (h : |st.zoomAcc| < 120) : |(applyStep s st x y z).1.zoomAcc| < 120 := by
  simp only [applyStep]
  split
  · exact drain_abs_lt _
  · exact h

lemma applyStep_conservation (s : Settings) (st : ConvState) (x y z : ℤ) :
    (applyStep s st x y z).1.zoomAcc + scrollSum (applyStep s st x y z).2
      = st.zoomAcc + zoomContrib s (x, y, z) := by
  simp only [applyStep]
  split
  · rename_i hz
    dsimp only
    rw [scrollSum_append, scrollSum_panActs]
    have h1 := drain_conservation (st.zoomAcc + zoomContrib s (x, y, z))
    linarith
  · rename_i hz
    rw [not_ne_iff] at hz
    simp [scrollSum_panActs, hz]

lemma applyStep_alternates (s : Settings) (st : ConvState) (x y z : ℤ) :
    alternatesFrom st.midHeld (applyStep s st x y z).2 = true := by
  simp only [applyStep]
  split
  · dsimp only
    rw [alternatesFrom_append, alternatesFrom_panActs, heldAfter_panActs,
        alternatesFrom_of_all_scroll _ (drain_all_scroll _)]
    rfl
  · exact alternatesFrom_panActs _ _ _

lemma applyStep_heldAfter (s : Settings) (st : ConvState) (x y z : ℤ) :
    heldAfter st.midHeld (applyStep s st x y z).2
      = (applyStep s st x y z).1.midHeld := by
  simp only [applyStep]
  split
  · dsimp only
    rw [heldAfter_append, heldAfter_panActs,
        heldAfter_of_all_scroll _ (drain_all_scroll _)]
  · dsimp only
    rw [heldAfter_panActs]

lemma applyStep_filter_isMove (s : Settings) (st : ConvState) (x y z : ℤ) :
    (applyStep s st x y z).2.filter isMove
      = if panComponent s x ≠ 0 ∨ panComponent s z ≠ 0
        then [Action.move (panComponent s x) (panComponent s z)] else [] := by
  simp only [applyStep]
  split
  · dsimp only
    rw [List.filter_append, filter_isMove_panActs,
        filter_isMove_of_all_scroll (drain_all_scroll _), List.append_nil]
  · dsimp only
    rw [filter_isMove_panActs]

lemma runSteps_zoomAcc_lt (s : Settings) (st : ConvState)
    (l : List (ℤ × ℤ × ℤ)) (h : |st.zoomAcc| < 120) :
    |(runSteps s st l).1.zoomAcc| < 120 := by
  induction l generalizing st with
  | nil => exact h
  | cons p rest ih =>
    obtain ⟨x, y, z⟩ := p
    simp only [runSteps]
    exact ih _ (applyStep_zoomAcc_lt s st x y z h)

lemma runSteps_conservation (s : Settings) (st : ConvState)
    (l : List (ℤ × ℤ × ℤ)) :
    (runSteps s st l).1.zoomAcc + scrollSum (runSteps s st l).2
      = st.zoomAcc + (l.map (zoomContrib s)).sum := by
  induction l generalizing st with
  | nil => simp [runSteps, scrollSum]
  | cons p rest ih =>
    obtain ⟨x, y, z⟩ := p
    simp only [runSteps, List.map_cons, List.sum_cons]
    rw [scrollSum_append]
    have h1 := applyStep_conservation s st x y z
    have h2 := ih (applyStep s st x y z).1
    linarith

lemma runSteps_alternates (s : Settings) (st : ConvState)
    (l : List (ℤ × ℤ × ℤ)) :
    alternatesFrom st.midHeld (runSteps s st l).2 = true
      ∧ heldAfter st.midHeld (runSteps s st l).2
          = (runSteps s st l).1.midHeld := by
  induction l generalizing st with
  | nil => exact ⟨rfl, rfl⟩
  | cons p rest ih =>
    obtain ⟨x, y, z⟩ := p
    simp only [runSteps]
    rw [alternatesFrom_append, heldAfter_append, applyStep_heldAfter,
        applyStep_alternates]
    obtain ⟨ih1, ih2⟩ := ih (applyStep s st x y z).1
    exact ⟨by rw [ih1]; rfl, ih2⟩

lemma ratTrunc_38_div_5 : ratTrunc ((38 : ℚ) / 5) = 7 := by
  have h1 : (38 : ℚ) / 5 = ((38 : ℤ) : ℚ) / ((5 : ℕ) : ℚ) := by
    push_cast
    norm_num
  rw [h1, ratTrunc_of_nonneg (by positivity), Rat.floor_intCast_div_natCast]
  decide

lemma round_38_div_5 : round ((38 : ℚ) / 5) = 8 := by
  have h1 : (38 : ℚ) / 5 + 1 / 2 = ((81 : ℤ) : ℚ) / ((10 : ℕ) : ℚ) := by
    push_cast
    norm_num
  rw [round_eq, h1, Rat.floor_intCast_div_natCast]
  decide

lemma ratTrunc_eight : ratTrunc (8 : ℚ) = 8 := by
  rw [ratTrunc, if_pos (by norm_num)]
  simp

lemma toI16_encode (v : ℤ) (h1 : -32768 ≤ v) (h2 : v < 32768) :
    toI16 ((v % 65536).toNat % 256 + 256 * ((v % 65536).toNat / 256)) = v := by
  rw [Nat.mod_add_div, toI16]
  have ha : ((v % 65536).toNat : ℤ) = v % 65536 :=
    Int.toNat_of_nonneg (Int.emod_nonneg v (by norm_num))
  split <;> omega

lemma decodeHid_cons (a b c d e f : ℕ) (rest : List ℕ) :
    decodeHid (1 :: a :: b :: c :: d :: e :: f :: rest)
      = some (toI16 (le16 a b), toI16 (le16 c d), toI16 (le16 e f)) := rfl

lemma dwTypeOf_append (buf extra : List ℕ) (h : 32 ≤ buf.length) :
    dwTypeOf (buf ++ extra) = dwTypeOf buf := by
  rw [dwTypeOf, dwTypeOf]
  rw [List.getD_append _ _ _ _ (by omega), List.getD_append _ _ _ _ (by omega),
      List.getD_append _ _ _ _ (by omega), List.getD_append _ _ _ _ (by omega)]

lemma dwSizeHidOf_append (buf extra : List ℕ) (h : 32 ≤ buf.length) :
    dwSizeHidOf (buf ++ extra) = dwSizeHidOf buf := by
  rw [dwSizeHidOf, dwSizeHidOf]
  rw [List.getD_append _ _ _ _ (by omega), List.getD_append _ _ _ _ (by omega),
      List.getD_append _ _ _ _ (by omega), List.getD_append _ _ _ _ (by omega)]

lemma dwCountOf_append (buf extra : List ℕ) (h : 32 ≤ buf.length) :
    dwCountOf (buf ++ extra) = dwCountOf buf := by
  rw [dwCountOf, dwCountOf]
  rw [List.getD_append _ _ _ _ (by omega), List.getD_append _ _ _ _ (by omega),
      List.getD_append _ _ _ _ (by omega), List.getD_append _ _ _ _ (by omega)]

lemma hid_slice_append (buf extra : List ℕ) (n : ℕ) (h : 32 + n ≤ buf.length) :
    ((buf ++ extra).drop 32).take n = (buf.drop 32).take n := by
  rw [List.drop_append_of_le_length (by omega)]
  rw [List.take_append_of_le_length (by simp [List.length_drop]; omega)]

/-! ### Claims -/

/-- Claim C1, counterexample: the claim says the pan component is
`round(x * pan_scale)` (nearest integer), but `_apply` computes
`int(x * PAN_SCALE)`, which truncates toward zero.  At `x = 95` with the
default settings, `95 * 0.08 = 7.6`: the code emits `move(7, 0)` while
the claimed rounding gives `8`. -/
theorem C1_round_counterexample :
    applyStep defaultSettings ⟨false, 0⟩ 95 0 0
      = (⟨true, 0⟩, [Action.press, Action.move 7 0])
    ∧ specPanRound defaultSettings 95 = 8 := by
  constructor
  · simp only [applyStep, panComponent, zoomContrib, panActs, defaultSettings]
    norm_num [ratTrunc_38_div_5]
  · simp only [specPanRound, defaultSettings]
    norm_num [round_38_div_5]

/-- Claim C1 (amended): for every input sample and settings, the pan
components are `trunc(x * pan_scale)` (truncation toward zero, Python
`int()`) when the axis passes the dead-zone filter, else 0 — the move
emitted by a step carries exactly these components; in particular, with
`dead_zone = 25` and `pan_scale = 0.08`, input `(100, 0, 0)` from the
not-held state emits a press followed by `move(8, 0)`. -/
theorem C1_pan_truncation :
    (∀ (s : Settings) (v : ℤ),
      panComponent s v
        = if s.deadZone ≤ |v| then ratTrunc ((v : ℚ) * s.panScale) else 0)
    ∧ (∀ (s : Settings) (st : ConvState) (x y z : ℤ),
      (applyStep s st x y z).2.filter isMove
        = if panComponent s x ≠ 0 ∨ panComponent s z ≠ 0
          then [Action.move (panComponent s x) (panComponent s z)] else [])
    ∧ applyStep defaultSettings ⟨false, 0⟩ 100 0 0
        = (⟨true, 0⟩, [Action.press, Action.move 8 0]) := by
  refine ⟨fun s v => rfl, applyStep_filter_isMove, ?_⟩
  simp only [applyStep, panComponent, zoomContrib, panActs, defaultSettings]
  norm_num [ratTrunc_eight]

/-- Claim C2: for every finite sequence of input samples processed by
the converter starting from `zoom_accumulator = 0`, after every
processing step `|zoom_accumulator| < 120` (each step of a longer run
is the final state of the corresponding sample-list prefix, which this
theorem covers by quantifying over all sample lists). -/
theorem C2_zoom_accumulator_invariant (s : Settings) (held : Bool)
    (l : List (ℤ × ℤ × ℤ)) :
    |(runSteps s ⟨held, 0⟩ l).1.zoomAcc| < 120 :=
  runSteps_zoomAcc_lt s ⟨held, 0⟩ l (by norm_num)

/-- Claim C3: zoom conservation — the sum of the signed magnitudes of
all emitted scroll actions plus the final accumulator equals the sum of
the raw zoom contributions (`-y * zoom_scale` where `y` passes the
dead-zone filter, else 0) over all steps. -/
theorem C3_zoom_conservation (s : Settings) (held : Bool)
    (l : List (ℤ × ℤ × ℤ)) :
    scrollSum (runSteps s ⟨held, 0⟩ l).2 + (runSteps s ⟨held, 0⟩ l).1.zoomAcc
      = (l.map (zoomContrib s)).sum := by
  have h := runSteps_conservation s ⟨held, 0⟩ l
  dsimp only at h
  linarith

/-- Claim C4: press/release alternation — starting from the not-held
state, the emitted action sequence never contains two presses without
an intervening release nor a release without an unmatched press
(checked by `alternatesFrom false`), and `middle_held` is true exactly
when the sequence ends with an unmatched press (`heldAfter false`). -/
theorem C4_press_release_alternation (s : Settings) (acc : ℚ)
    (l : List (ℤ × ℤ × ℤ)) :
    alternatesFrom false (runSteps s ⟨false, acc⟩ l).2 = true
    ∧ heldAfter false (runSteps s ⟨false, acc⟩ l).2
        = (runSteps s ⟨false, acc⟩ l).1.midHeld :=
  runSteps_alternates s ⟨false, acc⟩ l

/-- Claim C5: decoder round-trip and boundary — a report buffer (7 bytes
or more) with report id 1 and three little-endian i16 payloads decodes
to exactly those three values as `(x, y, z)`, regardless of trailing
bytes; any report id other than 1 (rotation id 2 included) yields
"ignore" regardless of payload content. -/
theorem C5_decoder_roundtrip :
    (∀ (x y z : ℤ) (rest : List ℕ),
      -32768 ≤ x → x < 32768 → -32768 ≤ y → y < 32768 → -32768 ≤ z → z < 32768 →
      decodeHid (1 :: (encodeI16 x ++ encodeI16 y ++ encodeI16 z ++ rest))
        = some (x, y, z))
    ∧ ∀ (hid : List ℕ), hid.getD 0 0 ≠ 1 → decodeHid hid = none := by
  constructor
  · intro x y z rest hx1 hx2 hy1 hy2 hz1 hz2
    simp only [encodeI16, List.cons_append, List.nil_append]
    rw [decodeHid_cons]
    simp only [le16]
    rw [toI16_encode x hx1 hx2, toI16_encode y hy1 hy2, toI16_encode z hz1 hz2]
  · intro hid h
    rw [decodeHid, if_neg h]

/-- Claim C5, witness: the round-trip at `(-2, 300, 5)` and the ignore
case at a rotation report (id 2). -/
theorem C5_decoder_roundtrip_witness :
    decodeHid (1 :: (encodeI16 (-2) ++ encodeI16 300 ++ encodeI16 5 ++ []))
      = some (-2, 300, 5)
    ∧ decodeHid [2, 0, 0, 0, 0, 0, 0] = none :=
  ⟨C5_decoder_roundtrip.1 (-2) 300 5 [] (by decide) (by decide) (by decide)
      (by decide) (by decide) (by decide),
    C5_decoder_roundtrip.2 [2, 0, 0, 0, 0, 0, 0] (by decide)⟩

/-- Claim C6, counterexample: a payload declaring `dwSizeHid = 10` and
`dwCount = 1` (declared end at byte `32 + 10 = 42`) but truncated to 40
bytes is NOT ignored: the slice still holds 7 or more bytes, so the
code decodes it to `(100, 0, 0)` instead of returning "ignore". -/
theorem C6_truncated_processed_counterexample :
    onRawInput ([2, 0, 0, 0] ++ List.replicate 20 0 ++ [10, 0, 0, 0]
        ++ [1, 0, 0, 0] ++ [1, 100, 0, 0, 0, 0, 0, 0]) = some (100, 0, 0)
    ∧ ([2, 0, 0, 0] ++ List.replicate 20 0 ++ [10, 0, 0, 0] ++ [1, 0, 0, 0]
        ++ ([1, 100, 0, 0, 0, 0, 0, 0] : List ℕ)).length < 32 + 10 * 1 := by
  constructor
  · decide
  · decide

/-- Claim C6 (amended): the decoder ignores every payload too short to
contain the 24-byte header, the 8 bytes of RAWHID sizes and a 7-byte
minimum first report (fewer than 39 bytes in total); it is a total
function, so malformed input yields "ignore" rather than an error.  A
payload truncated below its declared size is still processed when 7 or
more bytes of the first report remain (see the counterexample). -/
theorem C6_short_payload_ignored (buf : List ℕ) (h : buf.length < 39) :
    onRawInput buf = none := by
  simp only [onRawInput]
  split
  · rfl
  · split
    · rfl
    · split
      · rfl
      · have hlen : ((buf.drop 32).take (dwSizeHidOf buf)).length < 7 := by
          rw [List.length_take, List.length_drop]
          omega
        rw [if_pos hlen]

/-- Claim C6, witness: a 38-byte payload with valid type and size
fields but only 6 report bytes is ignored. -/
theorem C6_short_payload_ignored_witness :
    onRawInput ([2, 0, 0, 0] ++ List.replicate 20 0 ++ [7, 0, 0, 0]
        ++ [1, 0, 0, 0] ++ [1, 1, 1, 1, 1, 1]) = none :=
  C6_short_payload_ignored _ (by decide)

/-- Claim C7, counterexample: the loop-exit tail of `_message_loop`
(lines 232–243) makes no release call at all — it only unregisters the
device and clears the handle — so the thread does not emit a synthetic
release on exit even when the button is held. -/
theorem C7_no_release_on_loop_exit_counterexample :
    messageLoopExit.count SysCall.sendRelease = 0 := by decide

/-- Claim C7 (amended): the loop-exit path emits no synthetic input at
all (no release, no press); the stuck-button guarantee is instead
provided by `stop()`, whose fallback issues exactly one release when
the button is still held after the join and none otherwise. -/
theorem C7_exit_and_stop_release_split :
    messageLoopExit.count SysCall.sendRelease = 0
    ∧ messageLoopExit.count SysCall.sendPress = 0
    ∧ ∀ held : Bool,
        (stopCalls true held).count SysCall.sendRelease
          = if held then 1 else 0 := by
  refine ⟨rfl, rfl, ?_⟩
  decide

/-- Claim C8: when `stop()` is called while the button is held, exactly
one release is issued in total across the listener thread's exit path
(which issues none and leaves `_mid_held` untouched) and `stop()`'s own
fallback (which issues one since the flag is still set) — whether or
not a window handle existed for the termination post. -/
theorem C8_stop_releases_exactly_once (hw : Bool) :
    (messageLoopExit ++ stopCalls hw true).count SysCall.sendRelease = 1 := by
  cases hw <;> decide

/-- Claim C9: the mode gate — a device report delivered while
`drawing_mode` is false produces no synthesized action and leaves the
converter state unchanged; the report is dropped before decoding. -/
theorem C9_mode_gate_drops_reports (s : Settings) (st : ConvState)
    (buf : List ℕ) :
    wndProc false s st (WndMsg.input buf) = (st, []) := rfl

/-- Claim C10: only the first report of a multi-report payload is used:
appending any extra bytes (the second and later reports) after a
payload that fully contains its first report does not change the
decoder's result, and under the validity checks the result is exactly
the decode of the first `dwSizeHid`-byte slice. -/
theorem C10_first_report_only (buf extra : List ℕ)
    (hlen : 32 + dwSizeHidOf buf ≤ buf.length) :
    onRawInput (buf ++ extra) = onRawInput buf
    ∧ (dwTypeOf buf = 2 → dwCountOf buf ≠ 0 → 7 ≤ dwSizeHidOf buf →
        onRawInput buf = decodeHid ((buf.drop 32).take (dwSizeHidOf buf))) := by
  have h32 : 32 ≤ buf.length := by omega
  constructor
  · have e1 := dwTypeOf_append buf extra h32
    have e2 := dwSizeHidOf_append buf extra h32
    have e3 := dwCountOf_append buf extra h32
    have e4 := hid_slice_append buf extra (dwSizeHidOf buf) hlen
    simp only [onRawInput, e1, e2, e3, e4, List.length_append]
    have hb1 : ¬ (buf.length + extra.length < 32) := by omega
    have hb2 : ¬ (buf.length < 32) := by omega
    rw [if_neg hb1, if_neg hb2]
  · intro ht hc hs
    have h1 : ¬ (dwTypeOf buf ≠ 2) := by simp [ht]
    have h2 : ¬ (buf.length < 24 + 8) := by omega
    have h3 : ¬ (dwCountOf buf = 0 ∨ dwSizeHidOf buf < 7) := by
      push_neg
      exact ⟨hc, by omega⟩
    have h4 : ¬ (((buf.drop 32).take (dwSizeHidOf buf)).length < 7) := by
      rw [List.length_take, List.length_drop]
      omega
    simp only [onRawInput]
    rw [if_neg h1, if_neg h2, if_neg h3, if_neg h4]

/-- Claim C10, witness: a payload declaring `dwCount = 2` whose second
report (appended bytes `[1, 9, 0, 9, 0, 9, 0]`) is discarded — the
result equals that of the first report alone, `(3, 4, 5)`. -/
theorem C10_first_report_only_witness :
    onRawInput (([2, 0, 0, 0] ++ List.replicate 20 0 ++ [7, 0, 0, 0]
        ++ [2, 0, 0, 0] ++ [1, 3, 0, 4, 0, 5, 0]) ++ [1, 9, 0, 9, 0, 9, 0])
      = onRawInput ([2, 0, 0, 0] ++ List.replicate 20 0 ++ [7, 0, 0, 0]
        ++ [2, 0, 0, 0] ++ [1, 3, 0, 4, 0, 5, 0])
    ∧ onRawInput ([2, 0, 0, 0] ++ List.replicate 20 0 ++ [7, 0, 0, 0]
        ++ [2, 0, 0, 0] ++ [1, 3, 0, 4, 0, 5, 0]) = some (3, 4, 5) :=
  ⟨(C10_first_report_only _ _ (by decide)).1, by decide⟩

end SpaceMouse
